import Mathlib

/-!
Shallow embedding of the VGA text-buffer driver (`src/vga_buffer/mod.rs`).
The grid is a 25 × 80 matrix of `ScreenChar` cells; the `Writer` keeps a
cursor `(row_position, column_position)` and an active `ColorCode`, and
translates a byte stream into cell writes with wrap and scroll policy.
Bytes are modelled as `Nat` values (the Rust code uses `u8`); the volatile
buffer is modelled as a total function `Nat → Nat → ScreenChar`, updated
pointwise, with the source's loops rendered as structural recursions that
perform the same writes in the same order.
-/

namespace Vga

/-- The 16-value VGA color palette (`enum Color` in the source). -/
inductive Color where
  | Black | Blue | Green | Cyan | Red | Magenta | Brown | LightGray
  | DarkGray | LightBlue | LightGreen | LightCyan | LightRed | Pink
  | Yellow | White
deriving DecidableEq

/-- The numeric value of a `Color` (the `#[repr(u8)]` discriminant). -/
def Color.toByte : Color → Nat
  | .Black => 0 | .Blue => 1 | .Green => 2 | .Cyan => 3
  | .Red => 4 | .Magenta => 5 | .Brown => 6 | .LightGray => 7
  | .DarkGray => 8 | .LightBlue => 9 | .LightGreen => 10 | .LightCyan => 11
  | .LightRed => 12 | .Pink => 13 | .Yellow => 14 | .White => 15

/-- Packed foreground/background color byte (`struct ColorCode(u8)`). -/
structure ColorCode where
  val : Nat
deriving DecidableEq

/-- `ColorCode::new`: background in the high nibble, foreground in the low. -/
def ColorCode.new (foreground background : Color) : ColorCode :=
  ⟨((background.toByte <<< 4) ||| foreground.toByte) % 256⟩

/-- One grid cell (`struct ScreenChar`). -/
structure ScreenChar where
  ascii_character : Nat
  color_code : ColorCode
deriving DecidableEq

def BUFFER_HEIGHT : Nat := 25

def BUFFER_WIDTH : Nat := 80

/-- The grid (`struct Buffer`), modelled as a total function on indices;
the driver only ever touches indices inside the 25 × 80 rectangle. -/
structure Buffer where
  chars : Nat → Nat → ScreenChar

/-- A volatile read of one cell. -/
def Buffer.read (b : Buffer) (row col : Nat) : ScreenChar :=
  b.chars row col

/-- A volatile write of one cell. -/
def Buffer.write (b : Buffer) (row col : Nat) (sc : ScreenChar) : Buffer :=
  ⟨fun r c => if r = row ∧ c = col then sc else b.chars r c⟩

/-- The cursor/writer state (`struct Writer`); the `&mut Buffer` reference
becomes a buffer-valued field threaded through each operation. -/
structure Writer where
  row_position : Nat
  column_position : Nat
  color_code : ColorCode
  buffer : Buffer

/-- Inner loop of `clear_row`: `for col in 0..n` write a blank cell. -/
def clearRowLoop (b : Buffer) (blank : ScreenChar) (row : Nat) : Nat → Buffer
  | 0 => b
  | n + 1 => (clearRowLoop b blank row n).write row n blank

/-- `Writer::clear_row`: overwrite every cell of `row` with a blank cell
carrying the active color. -/
def Writer.clear_row (w : Writer) (row : Nat) : Writer :=
  let blank : ScreenChar := ⟨32, w.color_code⟩
  { w with buffer := clearRowLoop w.buffer blank row BUFFER_WIDTH }

/-- Inner scroll loop: `for col in 0..n` copy cell `(row, col)` into
`(row - 1, col)`. -/
def copyRowLoop (b : Buffer) (row : Nat) : Nat → Buffer
  | 0 => b
  | n + 1 =>
    let b' := copyRowLoop b row n
    b'.write (row - 1) n (b'.read row n)

/-- Outer scroll loop: `for row in 1..m+1` run the inner copy loop. -/
def scrollLoop (b : Buffer) : Nat → Buffer
  | 0 => b
  | m + 1 => copyRowLoop (scrollLoop b m) (m + 1) BUFFER_WIDTH

/-- `Writer::new_line`: on the last row scroll everything up one row and
blank the last row, otherwise advance the row; reset the column. -/
def Writer.new_line (w : Writer) : Writer :=
  let w' :=
    if w.row_position = BUFFER_HEIGHT - 1 then
      Writer.clear_row
        { w with buffer := scrollLoop w.buffer (BUFFER_HEIGHT - 1) }
        (BUFFER_HEIGHT - 1)
    else
      { w with row_position := w.row_position + 1 }
  { w' with column_position := 0 }

/-- `Writer::write_byte`: newline advances the line; any other byte is
written at the cursor, wrapping first when the column has reached the
width. -/
def Writer.write_byte (w : Writer) (byte : Nat) : Writer :=
  if byte = 10 then
    w.new_line
  else
    let w' := if BUFFER_WIDTH ≤ w.column_position then w.new_line else w
    let row := w'.row_position
    let col := w'.column_position
    let color_code := w'.color_code
    { w' with
      buffer := w'.buffer.write row col ⟨byte, color_code⟩
      column_position := w'.column_position + 1 }

/-- `Writer::write_string`: printable ASCII (0x20–0x7e) and newline pass
through to `write_byte`; every other byte becomes the placeholder 0xfe. -/
def Writer.write_string (w : Writer) (s : List Nat) : Writer :=
  s.foldl
    (fun w byte =>
      if (0x20 ≤ byte ∧ byte ≤ 0x7e) ∨ byte = 10 then
        w.write_byte byte
      else
        w.write_byte 0xfe)
    w

/-- Loop of `clear_screen`: `for row in 0..n` clear the row. -/
def clearScreenLoop (w : Writer) : Nat → Writer
  | 0 => w
  | n + 1 => (clearScreenLoop w n).clear_row n

/-- `Writer::clear_screen`: clear every row, then home the cursor. -/
def Writer.clear_screen (w : Writer) : Writer :=
  let w' := clearScreenLoop w BUFFER_HEIGHT
  { w' with row_position := 0, column_position := 0 }

/-- `Writer::with_color`: swap in `color`, run the body, restore the
previous color. -/
def Writer.with_color (w : Writer) (color : ColorCode) (f : Writer → Writer) :
    Writer :=
  let tmp_color := w.color_code
  let w' := f { w with color_code := color }
  { w' with color_code := tmp_color }

/-- The `WRITER` singleton's initial cursor and color (`lazy_static` block);
the hardware buffer's initial contents are unknown, so the buffer is a
parameter. -/
def initialWriter (buf : Buffer) : Writer :=
  { row_position := 0
    column_position := 0
    color_code := ColorCode.new Color.Yellow Color.Black
    buffer := buf }

/-- The writer built by the test helper `construct_writer`: blank buffer of
space glyphs colored Green-on-Brown, cursor at the origin, active color
Blue-on-Magenta. -/
def testWriter : Writer :=
  { row_position := 0
    column_position := 0
    color_code := ColorCode.new Color.Blue Color.Magenta
    buffer := ⟨fun _ _ => ⟨32, ColorCode.new Color.Green Color.Brown⟩⟩ }

/-- Spec-side helper: write a list of bytes with `write_byte`, in order. -/
def Writer.writeBytes (w : Writer) (bs : List Nat) : Writer :=
  bs.foldl Writer.write_byte w

/-- Spec-side helper: the substitution `write_string` applies to each byte
before handing it to `write_byte`. -/
def substByte (b : Nat) : Nat :=
  if (0x20 ≤ b ∧ b ≤ 0x7e) ∨ b = 10 then b else 0xfe

/-- The cursor-bounds invariant from the spec's data model. -/
def WriterInv (w : Writer) : Prop :=
  w.row_position < BUFFER_HEIGHT ∧ w.column_position ≤ BUFFER_WIDTH

/-! Instrumentation: the list of `(row, col)` index pairs each operation
passes to the buffer, in the order the source reads or writes them. -/

/-- Indices written by `clear_row row`. -/
def clearRowAccessList (row : Nat) : List (Nat × Nat) :=
  (List.range BUFFER_WIDTH).map fun c => (row, c)

/-- Indices read and written by the scroll loops of `new_line`: row `i + 1`
is read and row `i` written, for `i + 1` ranging over `1..BUFFER_HEIGHT`. -/
def scrollAccessList : List (Nat × Nat) :=
  (List.range (BUFFER_HEIGHT - 1)).flatMap fun i =>
    (List.range BUFFER_WIDTH).flatMap fun c => [(i + 1, c), (i, c)]

/-- Indices touched by `new_line`. -/
def newLineAccessList (w : Writer) : List (Nat × Nat) :=
  if w.row_position = BUFFER_HEIGHT - 1 then
    scrollAccessList ++ clearRowAccessList (BUFFER_HEIGHT - 1)
  else []

/-- Indices touched by `write_byte`. -/
def writeByteAccessList (w : Writer) (byte : Nat) : List (Nat × Nat) :=
  if byte = 10 then newLineAccessList w
  else if BUFFER_WIDTH ≤ w.column_position then
    newLineAccessList w ++
      [(w.new_line.row_position, w.new_line.column_position)]
  else [(w.row_position, w.column_position)]

/-- Indices touched by `write_string`, accumulated across its loop. -/
def writeStringAccessList (w : Writer) (s : List Nat) : List (Nat × Nat) :=
  (s.foldl
    (fun (p : Writer × List (Nat × Nat)) byte =>
      if (0x20 ≤ byte ∧ byte ≤ 0x7e) ∨ byte = 10 then
        (p.1.write_byte byte, p.2 ++ writeByteAccessList p.1 byte)
      else
        (p.1.write_byte 0xfe, p.2 ++ writeByteAccessList p.1 0xfe))
    (w, [])).2

/-- Indices touched by `clear_screen`. -/
def clearScreenAccessList : List (Nat × Nat) :=
  (List.range BUFFER_HEIGHT).flatMap clearRowAccessList

/-- The public operations reachable through the `WRITER` singleton. -/
inductive ConsoleOp where
  | writeByte (b : Nat)
  | writeString (s : List Nat)
  | clearScreen

/-- Run one public operation. -/
def runOp (w : Writer) : ConsoleOp → Writer
  | .writeByte b => w.write_byte b
  | .writeString s => w.write_string s
  | .clearScreen => w.clear_screen

/-- The indices one public operation touches. -/
def opAccessList (w : Writer) : ConsoleOp → List (Nat × Nat)
  | .writeByte b => writeByteAccessList w b
  | .writeString s => writeStringAccessList w s
  | .clearScreen => clearScreenAccessList

/-- Run a sequence of public operations. -/
def runOps (w : Writer) : List ConsoleOp → Writer
  | [] => w
  | op :: ops => runOps (runOp w op) ops

/-- All indices touched along a sequence of public operations. -/
def traceAccessList (w : Writer) : List ConsoleOp → List (Nat × Nat)
  | [] => []
  | op :: ops => opAccessList w op ++ traceAccessList (runOp w op) ops

/-- An index pair inside the 25 × 80 grid. -/
def inBounds (p : Nat × Nat) : Prop :=
  p.1 < BUFFER_HEIGHT ∧ p.2 < BUFFER_WIDTH

/-- The spec's scroll scenario made reachable from the fresh test writer:
line `"a"`, line `"bc"`, then newlines until the cursor sits on the last
row, then one more newline (23 newline bytes in all after the two
lines). -/
def scrollScenario : Writer :=
  ((testWriter.write_string [97, 10]).write_string [98, 99, 10]).writeBytes
    (List.replicate 23 10)


/-! ## Pointwise characterization of the buffer loops -/

theorem Buffer.chars_write (b : Buffer) (row col : Nat) (sc : ScreenChar)
    (r c : Nat) :
    (b.write row col sc).chars r c =
      if r = row ∧ c = col then sc else b.chars r c := rfl

theorem clearRowLoop_chars (b : Buffer) (blank : ScreenChar) (row : Nat) :
    ∀ n r c, (clearRowLoop b blank row n).chars r c =
      if r = row ∧ c < n then blank else b.chars r c
  | 0, r, c => by simp [clearRowLoop]
  | n + 1, r, c => by
    simp only [clearRowLoop, Buffer.chars_write,
      clearRowLoop_chars b blank row n]
    split_ifs <;> first | rfl | omega

theorem copyRowLoop_chars (b : Buffer) (row : Nat) (hrow : 1 ≤ row) :
    ∀ n r c, (copyRowLoop b row n).chars r c =
      if r = row - 1 ∧ c < n then b.chars row c else b.chars r c
  | 0, r, c => by simp [copyRowLoop]
  | n + 1, r, c => by
    simp only [copyRowLoop, Buffer.chars_write, Buffer.read,
      copyRowLoop_chars b row hrow n]
    split_ifs <;> first | rfl | omega | (congr 1; omega)

theorem scrollLoop_chars (b : Buffer) :
    ∀ m r c, (scrollLoop b m).chars r c =
      if r < m ∧ c < BUFFER_WIDTH then b.chars (r + 1) c else b.chars r c
  | 0, r, c => by simp [scrollLoop]
  | m + 1, r, c => by
    rw [scrollLoop, copyRowLoop_chars _ (m + 1) (Nat.succ_le_succ (Nat.zero_le m)),
      scrollLoop_chars b m, scrollLoop_chars b m]
    split_ifs <;> first | rfl | omega | (congr 1; omega)


/-! ## Writer-level lemmas -/

theorem clear_row_fields (w : Writer) (row : Nat) :
    (w.clear_row row).row_position = w.row_position ∧
    (w.clear_row row).column_position = w.column_position ∧
    (w.clear_row row).color_code = w.color_code := ⟨rfl, rfl, rfl⟩

theorem clear_row_chars (w : Writer) (row r c : Nat) :
    (w.clear_row row).buffer.chars r c =
      if r = row ∧ c < BUFFER_WIDTH then ⟨32, w.color_code⟩
      else w.buffer.chars r c := by
  simp only [Writer.clear_row, clearRowLoop_chars]

theorem new_line_column (w : Writer) : w.new_line.column_position = 0 := rfl

theorem new_line_color (w : Writer) :
    w.new_line.color_code = w.color_code := by
  simp only [Writer.new_line, Writer.clear_row]
  split <;> rfl

theorem new_line_row (w : Writer) :
    w.new_line.row_position =
      if w.row_position = BUFFER_HEIGHT - 1 then BUFFER_HEIGHT - 1
      else w.row_position + 1 := by
  simp only [Writer.new_line, Writer.clear_row]
  split <;> simp_all

theorem new_line_buffer_of_not_last (w : Writer)
    (h : w.row_position ≠ BUFFER_HEIGHT - 1) :
    w.new_line.buffer = w.buffer := by
  simp only [Writer.new_line]
  rw [if_neg h]

theorem new_line_chars_of_last (w : Writer)
    (h : w.row_position = BUFFER_HEIGHT - 1) (r c : Nat) :
    w.new_line.buffer.chars r c =
      if r = BUFFER_HEIGHT - 1 ∧ c < BUFFER_WIDTH then ⟨32, w.color_code⟩
      else if r < BUFFER_HEIGHT - 1 ∧ c < BUFFER_WIDTH then
        w.buffer.chars (r + 1) c
      else w.buffer.chars r c := by
  simp only [Writer.new_line, Writer.clear_row, if_pos h]
  simp only [clearRowLoop_chars, scrollLoop_chars]

theorem write_byte_no_wrap (w : Writer) (b : Nat) (hb : b ≠ 10)
    (hcol : w.column_position < BUFFER_WIDTH) :
    w.write_byte b =
      { w with
        buffer :=
          w.buffer.write w.row_position w.column_position ⟨b, w.color_code⟩
        column_position := w.column_position + 1 } := by
  simp only [Writer.write_byte, if_neg hb]
  rw [if_neg (by omega)]

theorem write_byte_wrap (w : Writer) (b : Nat) (hb : b ≠ 10)
    (hcol : BUFFER_WIDTH ≤ w.column_position) :
    w.write_byte b =
      { w.new_line with
        buffer :=
          w.new_line.buffer.write w.new_line.row_position 0 ⟨b, w.color_code⟩
        column_position := 1 } := by
  simp only [Writer.write_byte, if_neg hb]
  rw [if_pos hcol, new_line_column, new_line_color]

theorem write_byte_color (w : Writer) (b : Nat) :
    (w.write_byte b).color_code = w.color_code := by
  by_cases hb : b = 10
  · simp only [Writer.write_byte, if_pos hb]
    exact new_line_color w
  · simp only [Writer.write_byte, if_neg hb]
    by_cases hc : BUFFER_WIDTH ≤ w.column_position
    · rw [if_pos hc]; exact new_line_color w
    · rw [if_neg hc]


theorem BUFFER_HEIGHT_eq : BUFFER_HEIGHT = 25 := rfl

theorem BUFFER_WIDTH_eq : BUFFER_WIDTH = 80 := rfl

theorem inv_new_line (w : Writer) (h : WriterInv w) : WriterInv w.new_line := by
  obtain ⟨h1, h2⟩ := h
  refine ⟨?_, ?_⟩
  · rw [new_line_row]
    rw [BUFFER_HEIGHT_eq] at *
    split_ifs <;> omega
  · rw [new_line_column, BUFFER_WIDTH_eq]
    omega

theorem inv_write_byte (w : Writer) (b : Nat) (h : WriterInv w) :
    WriterInv (w.write_byte b) := by
  by_cases hb : b = 10
  · simp only [Writer.write_byte, if_pos hb]
    exact inv_new_line w h
  · by_cases hc : BUFFER_WIDTH ≤ w.column_position
    · rw [write_byte_wrap w b hb hc]
      exact ⟨(inv_new_line w h).1, by show (1 : Nat) ≤ BUFFER_WIDTH; decide⟩
    · rw [write_byte_no_wrap w b hb (by omega)]
      refine ⟨h.1, ?_⟩
      show w.column_position + 1 ≤ BUFFER_WIDTH
      omega

theorem inv_writeBytes (bs : List Nat) :
    ∀ w, WriterInv w → WriterInv (w.writeBytes bs) := by
  induction bs with
  | nil => exact fun w h => h
  | cons b bs ih =>
    intro w h
    exact ih _ (inv_write_byte w b h)

theorem write_string_eq_writeBytes (w : Writer) (s : List Nat) :
    w.write_string s = w.writeBytes (s.map substByte) := by
  unfold Writer.write_string Writer.writeBytes
  rw [List.foldl_map]
  congr 1
  funext w' b
  unfold substByte
  split_ifs with h <;> rfl

theorem inv_write_string (w : Writer) (s : List Nat) (h : WriterInv w) :
    WriterInv (w.write_string s) := by
  rw [write_string_eq_writeBytes]
  exact inv_writeBytes _ w h

theorem inv_clear_row (w : Writer) (row : Nat) (h : WriterInv w) :
    WriterInv (w.clear_row row) := h

theorem clearScreenLoop_fields (w : Writer) :
    ∀ n, (clearScreenLoop w n).row_position = w.row_position ∧
      (clearScreenLoop w n).column_position = w.column_position ∧
      (clearScreenLoop w n).color_code = w.color_code
  | 0 => ⟨rfl, rfl, rfl⟩
  | n + 1 => clearScreenLoop_fields w n

theorem clearScreenLoop_chars (w : Writer) :
    ∀ n r c, (clearScreenLoop w n).buffer.chars r c =
      if r < n ∧ c < BUFFER_WIDTH then ⟨32, w.color_code⟩
      else w.buffer.chars r c
  | 0, r, c => by simp [clearScreenLoop]
  | n + 1, r, c => by
    simp only [clearScreenLoop, clear_row_chars,
      (clearScreenLoop_fields w n).2.2, clearScreenLoop_chars w n]
    split_ifs <;> first | rfl | omega

theorem inv_clear_screen (w : Writer) (_h : WriterInv w) :
    WriterInv w.clear_screen :=
  ⟨by show (0 : Nat) < BUFFER_HEIGHT; decide,
   by show (0 : Nat) ≤ BUFFER_WIDTH; decide⟩

theorem inv_with_color (w : Writer) (c : ColorCode) (f : Writer → Writer)
    (hf : ∀ v, WriterInv v → WriterInv (f v)) (h : WriterInv w) :
    WriterInv (w.with_color c f) :=
  hf { w with color_code := c } h

theorem inv_initialWriter (buf : Buffer) : WriterInv (initialWriter buf) :=
  ⟨by show (0 : Nat) < BUFFER_HEIGHT; decide,
   by show (0 : Nat) ≤ BUFFER_WIDTH; decide⟩


/-! ## Wrap-free runs of `write_byte` -/

theorem writeBytes_nil (w : Writer) : w.writeBytes [] = w := rfl

theorem writeBytes_cons (w : Writer) (b : Nat) (bs : List Nat) :
    w.writeBytes (b :: bs) = (w.write_byte b).writeBytes bs := rfl

theorem writeBytes_no_wrap_fields (bs : List Nat) :
    ∀ w : Writer, (∀ b ∈ bs, b ≠ 10) →
      w.column_position + bs.length ≤ BUFFER_WIDTH →
      (w.writeBytes bs).row_position = w.row_position ∧
      (w.writeBytes bs).column_position = w.column_position + bs.length ∧
      (w.writeBytes bs).color_code = w.color_code := by
  induction bs with
  | nil => exact fun w _ _ => ⟨rfl, rfl, rfl⟩
  | cons b bs ih =>
    intro w hb hlen
    have hcol : w.column_position < BUFFER_WIDTH := by
      simp only [List.length_cons] at hlen; omega
    have hbne : b ≠ 10 := hb b (List.mem_cons_self b bs)
    rw [writeBytes_cons, write_byte_no_wrap w b hbne hcol]
    obtain ⟨h1, h2, h3⟩ := ih
      { w with
        buffer :=
          w.buffer.write w.row_position w.column_position ⟨b, w.color_code⟩
        column_position := w.column_position + 1 }
      (fun x hx => hb x (List.mem_cons_of_mem b hx))
      (by show w.column_position + 1 + bs.length ≤ BUFFER_WIDTH
          simp only [List.length_cons] at hlen
          omega)
    refine ⟨h1, ?_, h3⟩
    rw [h2]
    show w.column_position + 1 + bs.length =
      w.column_position + (b :: bs).length
    simp only [List.length_cons]
    omega

theorem writeBytes_no_wrap_chars_outside (bs : List Nat) :
    ∀ (w : Writer) (r c : Nat), (∀ b ∈ bs, b ≠ 10) →
      w.column_position + bs.length ≤ BUFFER_WIDTH →
      (r ≠ w.row_position ∨ c < w.column_position) →
      (w.writeBytes bs).buffer.chars r c = w.buffer.chars r c := by
  induction bs with
  | nil => exact fun w r c _ _ _ => rfl
  | cons b bs ih =>
    intro w r c hb hlen hout
    have hcol : w.column_position < BUFFER_WIDTH := by
      simp only [List.length_cons] at hlen; omega
    have hbne : b ≠ 10 := hb b (List.mem_cons_self b bs)
    rw [writeBytes_cons, write_byte_no_wrap w b hbne hcol]
    rw [ih
      { w with
        buffer :=
          w.buffer.write w.row_position w.column_position ⟨b, w.color_code⟩
        column_position := w.column_position + 1 }
      r c
      (fun x hx => hb x (List.mem_cons_of_mem b hx))
      (by show w.column_position + 1 + bs.length ≤ BUFFER_WIDTH
          simp only [List.length_cons] at hlen
          omega)
      (by rcases hout with h | h
          · exact Or.inl h
          · exact Or.inr (by show c < w.column_position + 1; omega))]
    show (if r = w.row_position ∧ c = w.column_position then
        (⟨b, w.color_code⟩ : ScreenChar) else w.buffer.chars r c) =
      w.buffer.chars r c
    rw [if_neg (by rcases hout with h | h <;> omega)]

theorem writeBytes_no_wrap_written (bs : List Nat) :
    ∀ w : Writer, (∀ b ∈ bs, b ≠ 10) →
      w.column_position + bs.length ≤ BUFFER_WIDTH →
      ∀ i hi,
        (w.writeBytes bs).buffer.chars w.row_position (w.column_position + i)
          = ⟨bs.get ⟨i, hi⟩, w.color_code⟩ := by
  induction bs with
  | nil => exact fun w _ _ i hi => absurd hi (by simp)
  | cons b bs ih =>
    intro w hb hlen i hi
    have hbne : b ≠ 10 := hb b (List.mem_cons_self b bs)
    have hcol : w.column_position < BUFFER_WIDTH := by
      simp only [List.length_cons] at hlen; omega
    rw [writeBytes_cons, write_byte_no_wrap w b hbne hcol]
    match i with
    | 0 =>
      rw [writeBytes_no_wrap_chars_outside bs
        { w with
          buffer :=
            w.buffer.write w.row_position w.column_position ⟨b, w.color_code⟩
          column_position := w.column_position + 1 }
        w.row_position (w.column_position + 0)
        (fun x hx => hb x (List.mem_cons_of_mem b hx))
        (by show w.column_position + 1 + bs.length ≤ BUFFER_WIDTH
            simp only [List.length_cons] at hlen
            omega)
        (Or.inr (by show w.column_position + 0 < w.column_position + 1
                    exact Nat.lt_succ_self _))]
      show (if w.row_position = w.row_position ∧
          w.column_position + 0 = w.column_position then
          (⟨b, w.color_code⟩ : ScreenChar)
        else w.buffer.chars w.row_position (w.column_position + 0)) = _
      rw [if_pos ⟨rfl, by omega⟩]
      rfl
    | j + 1 =>
      have h := ih
        { w with
          buffer :=
            w.buffer.write w.row_position w.column_position ⟨b, w.color_code⟩
          column_position := w.column_position + 1 }
        (fun x hx => hb x (List.mem_cons_of_mem b hx))
        (by show w.column_position + 1 + bs.length ≤ BUFFER_WIDTH
            simp only [List.length_cons] at hlen
            omega)
        j (by simp only [List.length_cons] at hi; omega)
      rw [show w.column_position + (j + 1) = w.column_position + 1 + j by
        omega]
      exact h


/-! ## All buffer accesses stay inside the grid -/

theorem inBounds_clearRowAccessList (row : Nat) (hrow : row < BUFFER_HEIGHT) :
    ∀ p ∈ clearRowAccessList row, inBounds p := by
  intro p hp
  simp only [clearRowAccessList, List.mem_map, List.mem_range] at hp
  obtain ⟨c, hc, rfl⟩ := hp
  exact ⟨hrow, hc⟩

theorem inBounds_scrollAccessList : ∀ p ∈ scrollAccessList, inBounds p := by
  intro p hp
  simp only [scrollAccessList, List.mem_flatMap, List.mem_range,
    List.mem_cons, List.not_mem_nil, or_false] at hp
  obtain ⟨i, hi, c, hc, hp⟩ := hp
  rw [BUFFER_HEIGHT_eq] at hi
  rcases hp with rfl | rfl
  · exact ⟨by rw [BUFFER_HEIGHT_eq]; omega, hc⟩
  · exact ⟨by rw [BUFFER_HEIGHT_eq]; omega, hc⟩

theorem inBounds_newLineAccessList (w : Writer) :
    ∀ p ∈ newLineAccessList w, inBounds p := by
  intro p hp
  unfold newLineAccessList at hp
  split_ifs at hp with hrow
  · rcases List.mem_append.1 hp with h1 | h1
    · exact inBounds_scrollAccessList p h1
    · exact inBounds_clearRowAccessList (BUFFER_HEIGHT - 1)
        (by rw [BUFFER_HEIGHT_eq]; omega) p h1
  · exact absurd hp (List.not_mem_nil p)

theorem inBounds_writeByteAccessList (w : Writer) (b : Nat)
    (h : WriterInv w) : ∀ p ∈ writeByteAccessList w b, inBounds p := by
  intro p hp
  unfold writeByteAccessList at hp
  split_ifs at hp with hb hc
  · exact inBounds_newLineAccessList w p hp
  · rcases List.mem_append.1 hp with h1 | h1
    · exact inBounds_newLineAccessList w p h1
    · rcases List.mem_singleton.1 h1 with rfl
      refine ⟨(inv_new_line w h).1, ?_⟩
      show w.new_line.column_position < BUFFER_WIDTH
      rw [new_line_column, BUFFER_WIDTH_eq]
      omega
  · rcases List.mem_singleton.1 hp with rfl
    exact ⟨h.1, by show w.column_position < BUFFER_WIDTH; omega⟩

theorem writeString_fold_inBounds (s : List Nat) :
    ∀ (w : Writer) (acc : List (Nat × Nat)), WriterInv w →
      (∀ p ∈ acc, inBounds p) →
      ∀ p ∈ (s.foldl
        (fun (p : Writer × List (Nat × Nat)) byte =>
          if (0x20 ≤ byte ∧ byte ≤ 0x7e) ∨ byte = 10 then
            (p.1.write_byte byte, p.2 ++ writeByteAccessList p.1 byte)
          else
            (p.1.write_byte 0xfe, p.2 ++ writeByteAccessList p.1 0xfe))
        (w, acc)).2, inBounds p := by
  induction s with
  | nil => exact fun w acc _ hacc => hacc
  | cons b s ih =>
    intro w acc hw hacc
    rw [List.foldl_cons]
    split_ifs with hb
    · exact ih (w.write_byte b) (acc ++ writeByteAccessList w b)
        (inv_write_byte w b hw)
        (fun p hp => (List.mem_append.1 hp).elim (hacc p)
          (inBounds_writeByteAccessList w b hw p))
    · exact ih (w.write_byte 0xfe) (acc ++ writeByteAccessList w 0xfe)
        (inv_write_byte w 0xfe hw)
        (fun p hp => (List.mem_append.1 hp).elim (hacc p)
          (inBounds_writeByteAccessList w 0xfe hw p))

theorem inBounds_writeStringAccessList (w : Writer) (s : List Nat)
    (h : WriterInv w) : ∀ p ∈ writeStringAccessList w s, inBounds p := by
  intro p hp
  unfold writeStringAccessList at hp
  exact writeString_fold_inBounds s w [] h
    (fun q hq => absurd hq (List.not_mem_nil q)) p hp

theorem inBounds_clearScreenAccessList :
    ∀ p ∈ clearScreenAccessList, inBounds p := by
  intro p hp
  simp only [clearScreenAccessList, List.mem_flatMap, List.mem_range] at hp
  obtain ⟨r, hr, hp⟩ := hp
  exact inBounds_clearRowAccessList r hr p hp

theorem inBounds_opAccessList (w : Writer) (op : ConsoleOp)
    (h : WriterInv w) : ∀ p ∈ opAccessList w op, inBounds p := by
  cases op with
  | writeByte b => exact inBounds_writeByteAccessList w b h
  | writeString s => exact inBounds_writeStringAccessList w s h
  | clearScreen => exact fun p hp => inBounds_clearScreenAccessList p hp

theorem inv_runOp (w : Writer) (op : ConsoleOp) (h : WriterInv w) :
    WriterInv (runOp w op) := by
  cases op with
  | writeByte b => exact inv_write_byte w b h
  | writeString s => exact inv_write_string w s h
  | clearScreen => exact inv_clear_screen w h

theorem inBounds_traceAccessList (ops : List ConsoleOp) :
    ∀ w : Writer, WriterInv w →
      ∀ p ∈ traceAccessList w ops, inBounds p := by
  induction ops with
  | nil => exact fun w _ p hp => absurd hp (List.not_mem_nil p)
  | cons op ops ih =>
    intro w hw p hp
    rcases List.mem_append.1 hp with h1 | h1
    · exact inBounds_opAccessList w op hw p h1
    · exact ih (runOp w op) (inv_runOp w op hw) p h1


theorem Buffer.chars_write_self (b : Buffer) (row col : Nat)
    (sc : ScreenChar) : (b.write row col sc).chars row col = sc := by
  rw [Buffer.chars_write, if_pos ⟨rfl, rfl⟩]

/-! ## Cells after a run under a fixed color: freshly written cells carry
that color; every other changed cell is pre-existing content the scroll
moved up (same column, a row at or below the one it now occupies). -/

theorem cellColorOrMoved_new_line (b0 : Buffer) (c : ColorCode)
    (w : Writer) (hcol : w.color_code = c)
    (h : ∀ r col, (w.buffer.chars r col).color_code = c ∨
      ∃ r', r ≤ r' ∧ w.buffer.chars r col = b0.chars r' col) :
    ∀ r col, (w.new_line.buffer.chars r col).color_code = c ∨
      ∃ r', r ≤ r' ∧ w.new_line.buffer.chars r col = b0.chars r' col := by
  intro r col
  by_cases hrow : w.row_position = BUFFER_HEIGHT - 1
  · rw [new_line_chars_of_last w hrow]
    split_ifs with h1 h2
    · left
      exact hcol
    · rcases h (r + 1) col with hl | ⟨r', hr', he⟩
      · left
        exact hl
      · right
        exact ⟨r', by omega, he⟩
    · exact h r col
  · rw [new_line_buffer_of_not_last w hrow]
    exact h r col

theorem cellColorOrMoved_write_byte (b0 : Buffer) (c : ColorCode)
    (w : Writer) (hcol : w.color_code = c)
    (h : ∀ r col, (w.buffer.chars r col).color_code = c ∨
      ∃ r', r ≤ r' ∧ w.buffer.chars r col = b0.chars r' col) (b : Nat) :
    ∀ r col, ((w.write_byte b).buffer.chars r col).color_code = c ∨
      ∃ r', r ≤ r' ∧
        (w.write_byte b).buffer.chars r col = b0.chars r' col := by
  intro r col
  by_cases hb : b = 10
  · simp only [Writer.write_byte, if_pos hb]
    exact cellColorOrMoved_new_line b0 c w hcol h r col
  · by_cases hc : BUFFER_WIDTH ≤ w.column_position
    · rw [write_byte_wrap w b hb hc]
      show ((w.new_line.buffer.write w.new_line.row_position 0
          ⟨b, w.color_code⟩).chars r col).color_code = c ∨
        ∃ r', r ≤ r' ∧
          (w.new_line.buffer.write w.new_line.row_position 0
            ⟨b, w.color_code⟩).chars r col = b0.chars r' col
      rw [Buffer.chars_write]
      split_ifs with hif
      · left
        exact hcol
      · exact cellColorOrMoved_new_line b0 c w hcol h r col
    · rw [write_byte_no_wrap w b hb (by omega)]
      show ((w.buffer.write w.row_position w.column_position
          ⟨b, w.color_code⟩).chars r col).color_code = c ∨
        ∃ r', r ≤ r' ∧
          (w.buffer.write w.row_position w.column_position
            ⟨b, w.color_code⟩).chars r col = b0.chars r' col
      rw [Buffer.chars_write]
      split_ifs with hif
      · left
        exact hcol
      · exact h r col

theorem cellColorOrMoved_writeBytes (b0 : Buffer) (c : ColorCode)
    (bs : List Nat) :
    ∀ w : Writer, w.color_code = c →
      (∀ r col, (w.buffer.chars r col).color_code = c ∨
        ∃ r', r ≤ r' ∧ w.buffer.chars r col = b0.chars r' col) →
      ∀ r col, ((w.writeBytes bs).buffer.chars r col).color_code = c ∨
        ∃ r', r ≤ r' ∧
          (w.writeBytes bs).buffer.chars r col = b0.chars r' col := by
  induction bs with
  | nil => exact fun w _ h => h
  | cons b bs ih =>
    intro w hcol h
    rw [writeBytes_cons]
    exact ih (w.write_byte b)
      (by rw [write_byte_color]; exact hcol)
      (cellColorOrMoved_write_byte b0 c w hcol h b)

/-! ## Claims -/

/-- C1: for a printable ASCII byte `b`, `write_byte b` with the column
strictly below the width writes `⟨b, active color⟩` at the pre-call
`(row, column)` and increments the column by one leaving the row alone;
with the column at the width it wraps first and writes the cell at the
post-wrap cursor `(new_line row, 0)`. -/
theorem writeByte_printable_cell_spec (w : Writer) (b : Nat)
    (hb : 0x20 ≤ b ∧ b ≤ 0x7e) :
    (w.column_position < BUFFER_WIDTH →
      (w.write_byte b).buffer.chars w.row_position w.column_position =
        ⟨b, w.color_code⟩ ∧
      (w.write_byte b).column_position = w.column_position + 1 ∧
      (w.write_byte b).row_position = w.row_position) ∧
    (w.column_position = BUFFER_WIDTH →
      (w.write_byte b).buffer.chars w.new_line.row_position 0 =
        ⟨b, w.color_code⟩ ∧
      (w.write_byte b).column_position = 1 ∧
      (w.write_byte b).row_position = w.new_line.row_position) := by
  have hb10 : b ≠ 10 := by omega
  constructor
  · intro h
    rw [write_byte_no_wrap w b hb10 h]
    exact ⟨Buffer.chars_write_self w.buffer w.row_position w.column_position
      ⟨b, w.color_code⟩, rfl, rfl⟩
  · intro h
    rw [write_byte_wrap w b hb10 (le_of_eq h.symm)]
    exact ⟨Buffer.chars_write_self w.new_line.buffer w.new_line.row_position 0
      ⟨b, w.color_code⟩, rfl, rfl⟩

/-- C1 witness: writing `X` on the fresh test writer. -/
theorem writeByte_printable_cell_spec_witness :
    (testWriter.write_byte 88).buffer.chars 0 0 =
      ⟨88, testWriter.color_code⟩ ∧
    (testWriter.write_byte 88).column_position = 1 := by
  have h := (writeByte_printable_cell_spec testWriter 88 (by decide)).1
    (by decide)
  exact ⟨h.1, h.2.1⟩

/-- C2: from column 0, eighty printable bytes advance the column to the
width without touching the row; the eighty-first printable byte triggers
exactly one wrap and lands at column 0 of the line produced by
`new_line`, with the active color intact. -/
theorem write_width_plus_one_wraps_once (w : Writer) (bs : List Nat)
    (b : Nat)
    (hcol : w.column_position = 0)
    (hlen : bs.length = BUFFER_WIDTH)
    (hbs : ∀ x ∈ bs, 0x20 ≤ x ∧ x ≤ 0x7e)
    (hb : 0x20 ≤ b ∧ b ≤ 0x7e) :
    (w.writeBytes bs).row_position = w.row_position ∧
    (w.writeBytes bs).column_position = BUFFER_WIDTH ∧
    ((w.writeBytes bs).write_byte b).row_position =
      (w.writeBytes bs).new_line.row_position ∧
    ((w.writeBytes bs).write_byte b).column_position = 1 ∧
    ((w.writeBytes bs).write_byte b).buffer.chars
      (w.writeBytes bs).new_line.row_position 0 = ⟨b, w.color_code⟩ := by
  obtain ⟨h1, h2, h3⟩ := writeBytes_no_wrap_fields bs w
    (fun x hx => by have := hbs x hx; omega)
    (by rw [hcol, hlen]; omega)
  have hcol80 : (w.writeBytes bs).column_position = BUFFER_WIDTH := by
    rw [h2, hcol, hlen]; omega
  have hb10 : b ≠ 10 := by omega
  rw [write_byte_wrap (w.writeBytes bs) b hb10 (le_of_eq hcol80.symm)]
  refine ⟨h1, hcol80, rfl, rfl, ?_⟩
  show ((w.writeBytes bs).new_line.buffer.write
      (w.writeBytes bs).new_line.row_position 0
      ⟨b, (w.writeBytes bs).color_code⟩).chars
    (w.writeBytes bs).new_line.row_position 0 = _
  rw [Buffer.chars_write_self, h3]

/-- C2 witness: eighty `A`s then a `B` on the fresh test writer. -/
theorem write_width_plus_one_wraps_once_witness :
    ((testWriter.writeBytes (List.replicate 80 65)).write_byte 66
        ).buffer.chars
      (testWriter.writeBytes (List.replicate 80 65)).new_line.row_position 0
      = ⟨66, testWriter.color_code⟩ ∧
    ((testWriter.writeBytes (List.replicate 80 65)).write_byte 66
        ).column_position = 1 := by
  have h := write_width_plus_one_wraps_once testWriter
    (List.replicate 80 65) 66 rfl (by decide) (by decide) (by decide)
  exact ⟨h.2.2.2.2, h.2.2.2.1⟩

/-- C3: `new_line` resets the column; on the last row it copies every row
`r` in `1..HEIGHT` into row `r - 1`, blanks the last row with the active
color and keeps the row at `HEIGHT - 1`; on any other row it only
increments the row, leaving the grid unchanged. -/
theorem new_line_behavior_spec (w : Writer) :
    w.new_line.column_position = 0 ∧
    (w.row_position = BUFFER_HEIGHT - 1 →
      w.new_line.row_position = BUFFER_HEIGHT - 1 ∧
      (∀ r c, 1 ≤ r → r ≤ BUFFER_HEIGHT - 1 → c < BUFFER_WIDTH →
        w.new_line.buffer.chars (r - 1) c = w.buffer.chars r c) ∧
      (∀ c, c < BUFFER_WIDTH →
        w.new_line.buffer.chars (BUFFER_HEIGHT - 1) c =
          ⟨32, w.color_code⟩)) ∧
    (w.row_position ≠ BUFFER_HEIGHT - 1 →
      w.new_line.row_position = w.row_position + 1 ∧
      w.new_line.buffer = w.buffer) := by
  refine ⟨new_line_column w, fun h => ⟨?_, ?_, ?_⟩,
    fun h => ⟨?_, new_line_buffer_of_not_last w h⟩⟩
  · rw [new_line_row, if_pos h]
  · intro r c h1 h2 hc
    rw [new_line_chars_of_last w h]
    rw [BUFFER_HEIGHT_eq] at h2 ⊢
    rw [if_neg (by omega), if_pos ⟨by omega, hc⟩]
    have hr : r - 1 + 1 = r := by omega
    rw [hr]
  · intro c hc
    rw [new_line_chars_of_last w h, if_pos ⟨rfl, hc⟩]
  · rw [new_line_row, if_neg h]

/-- C3 witness: a writer sitting on the last row scrolls and blanks. -/
theorem new_line_behavior_spec_witness :
    ({ testWriter with row_position := BUFFER_HEIGHT - 1 } :
        Writer).new_line.column_position = 0 ∧
    ({ testWriter with row_position := BUFFER_HEIGHT - 1 } :
        Writer).new_line.row_position = BUFFER_HEIGHT - 1 ∧
    ({ testWriter with row_position := BUFFER_HEIGHT - 1 } :
        Writer).new_line.buffer.chars (BUFFER_HEIGHT - 1) 0 =
      ⟨32, testWriter.color_code⟩ := by
  have h := new_line_behavior_spec
    { testWriter with row_position := BUFFER_HEIGHT - 1 }
  exact ⟨h.1, (h.2.1 rfl).1, (h.2.1 rfl).2.2 0 (by decide)⟩


/-- C4: `write_string` walks the bytes in order and hands each one to
`write_byte`, unchanged when it is printable ASCII (0x20–0x7e) or
newline and as the fixed placeholder 0xfe otherwise; every input byte is
consumed, with no error path. -/
theorem write_string_byte_policy (w : Writer) (s : List Nat) :
    w.write_string s = w.writeBytes (s.map substByte) ∧
    ∀ b : Nat,
      (((0x20 ≤ b ∧ b ≤ 0x7e) ∨ b = 10) → substByte b = b) ∧
      (¬((0x20 ≤ b ∧ b ≤ 0x7e) ∨ b = 10) → substByte b = 0xfe) := by
  refine ⟨write_string_eq_writeBytes w s, fun b => ⟨?_, ?_⟩⟩
  · intro h
    unfold substByte
    rw [if_pos h]
  · intro h
    unfold substByte
    rw [if_neg h]

/-- C4 witness: a control byte and a printable byte through
`write_string`. -/
theorem write_string_byte_policy_witness :
    testWriter.write_string [1, 97] =
      testWriter.writeBytes ([1, 97].map substByte) ∧
    substByte 97 = 97 ∧ substByte 1 = 0xfe := by
  have h := write_string_byte_policy testWriter [1, 97]
  exact ⟨h.1, (h.2 97).1 (by decide), (h.2 1).2 (by decide)⟩

/-- C5: `with_color` restores the caller's active color after any body
whatsoever; for a body that writes any byte list (or any string) through
the writer, every cell of the resulting grid either carries the scoped
color `c` or is pre-call content that a scroll moved up (same column,
from a row at or below its new one) — so every cell the body itself
deposits, including wrapped, newline and scroll-blanked cells, carries
`c`; and a wrap-free run deposits exactly its bytes, each with color
`c`. -/
theorem with_color_scope_spec (w : Writer) (c : ColorCode)
    (f : Writer → Writer) (bs : List Nat) (s : List Nat) :
    (w.with_color c f).color_code = w.color_code ∧
    (∀ r col,
      (((w.with_color c (fun v => v.writeBytes bs)).buffer.chars
          r col).color_code = c ∨
        ∃ r', r ≤ r' ∧
          (w.with_color c (fun v => v.writeBytes bs)).buffer.chars r col =
            w.buffer.chars r' col)) ∧
    (∀ r col,
      (((w.with_color c (fun v => v.write_string s)).buffer.chars
          r col).color_code = c ∨
        ∃ r', r ≤ r' ∧
          (w.with_color c (fun v => v.write_string s)).buffer.chars r col =
            w.buffer.chars r' col)) ∧
    ((∀ b ∈ bs, b ≠ 10) →
      w.column_position + bs.length ≤ BUFFER_WIDTH →
      ∀ i hi,
        (w.with_color c (fun v => v.writeBytes bs)).buffer.chars
          w.row_position (w.column_position + i) = ⟨bs.get ⟨i, hi⟩, c⟩) := by
  have base : ∀ r col,
      ((({ w with color_code := c } : Writer).buffer.chars
          r col).color_code = c ∨
        ∃ r', r ≤ r' ∧
          ({ w with color_code := c } : Writer).buffer.chars r col =
            w.buffer.chars r' col) :=
    fun r col => Or.inr ⟨r, Nat.le_refl r, rfl⟩
  refine ⟨rfl, ?_, ?_, ?_⟩
  · intro r col
    exact cellColorOrMoved_writeBytes w.buffer c bs
      { w with color_code := c } rfl base r col
  · intro r col
    have key := cellColorOrMoved_writeBytes w.buffer c (s.map substByte)
      { w with color_code := c } rfl base r col
    rw [← write_string_eq_writeBytes { w with color_code := c } s] at key
    exact key
  · intro hb hlen i hi
    exact writeBytes_no_wrap_written bs { w with color_code := c } hb hlen
      i hi

/-- C5 witness: one `X` under Red-on-Cyan lands with the scoped color
and the color is restored, and with a newline in the body the touched
cell still satisfies the scoped-color-or-moved disjunction. -/
theorem with_color_scope_spec_witness :
    (testWriter.with_color (ColorCode.new Color.Red Color.Cyan)
        (fun v => v.writeBytes [88])).color_code = testWriter.color_code ∧
    (testWriter.with_color (ColorCode.new Color.Red Color.Cyan)
        (fun v => v.writeBytes [88])).buffer.chars 0 0 =
      ⟨88, ColorCode.new Color.Red Color.Cyan⟩ ∧
    (((testWriter.with_color (ColorCode.new Color.Red Color.Cyan)
          (fun v => v.writeBytes [88, 10])).buffer.chars 0 0).color_code =
        ColorCode.new Color.Red Color.Cyan ∨
      ∃ r', 0 ≤ r' ∧
        (testWriter.with_color (ColorCode.new Color.Red Color.Cyan)
            (fun v => v.writeBytes [88, 10])).buffer.chars 0 0 =
          testWriter.buffer.chars r' 0) := by
  have h := with_color_scope_spec testWriter
    (ColorCode.new Color.Red Color.Cyan) (fun v => v.writeBytes [88])
    [88] []
  have h2 := with_color_scope_spec testWriter
    (ColorCode.new Color.Red Color.Cyan) (fun v => v.writeBytes [88, 10])
    [88, 10] []
  exact ⟨h.1, h.2.2.2 (by decide) (by decide) 0 (by decide), h2.2.1 0 0⟩

/-- C6: after `clear_screen` every in-grid cell is the blank
space-glyph cell in the active color and the cursor is at the origin. -/
theorem clear_screen_blank_spec (w : Writer) :
    w.clear_screen.row_position = 0 ∧
    w.clear_screen.column_position = 0 ∧
    ∀ r c, r < BUFFER_HEIGHT → c < BUFFER_WIDTH →
      w.clear_screen.buffer.chars r c = ⟨32, w.color_code⟩ := by
  refine ⟨rfl, rfl, ?_⟩
  intro r c hr hc
  show (clearScreenLoop w BUFFER_HEIGHT).buffer.chars r c = _
  rw [clearScreenLoop_chars w BUFFER_HEIGHT r c, if_pos ⟨hr, hc⟩]

/-- C6 witness: clearing the test writer blanks cell `(0, 0)`. -/
theorem clear_screen_blank_spec_witness :
    testWriter.clear_screen.row_position = 0 ∧
    testWriter.clear_screen.column_position = 0 ∧
    testWriter.clear_screen.buffer.chars 0 0 =
      ⟨32, testWriter.color_code⟩ := by
  have h := clear_screen_blank_spec testWriter
  exact ⟨h.1, h.2.1, h.2.2 0 0 (by decide) (by decide)⟩

/-- C7: `row < HEIGHT ∧ column ≤ WIDTH` holds for the initial writer and
is preserved by every operation (`with_color` for any invariant-preserving
body). -/
theorem writer_invariant_spec :
    (∀ buf, WriterInv (initialWriter buf)) ∧
    (∀ (w : Writer) (b : Nat), WriterInv w → WriterInv (w.write_byte b)) ∧
    (∀ (w : Writer) (s : List Nat), WriterInv w →
      WriterInv (w.write_string s)) ∧
    (∀ w : Writer, WriterInv w → WriterInv w.new_line) ∧
    (∀ (w : Writer) (r : Nat), WriterInv w → WriterInv (w.clear_row r)) ∧
    (∀ w : Writer, WriterInv w → WriterInv w.clear_screen) ∧
    (∀ (w : Writer) (c : ColorCode) (f : Writer → Writer),
      (∀ v, WriterInv v → WriterInv (f v)) → WriterInv w →
      WriterInv (w.with_color c f)) :=
  ⟨inv_initialWriter, inv_write_byte, inv_write_string, inv_new_line,
   inv_clear_row, inv_clear_screen, inv_with_color⟩

/-- C7 witness: the invariant at the initial writer and after one
write. -/
theorem writer_invariant_spec_witness :
    WriterInv (initialWriter testWriter.buffer) ∧
    WriterInv (testWriter.write_byte 88) := by
  have h := writer_invariant_spec
  exact ⟨h.1 testWriter.buffer,
    h.2.1 testWriter 88 ⟨by decide, by decide⟩⟩

/-- C8: every `(row, col)` index any public operation sequence passes to
the buffer, starting from the initial writer on any backing buffer, lies
inside the 25 × 80 grid. -/
theorem no_out_of_bounds_access (buf : Buffer) (ops : List ConsoleOp)
    (p : Nat × Nat)
    (hp : p ∈ traceAccessList (initialWriter buf) ops) :
    p.1 < BUFFER_HEIGHT ∧ p.2 < BUFFER_WIDTH :=
  inBounds_traceAccessList ops (initialWriter buf)
    (inv_initialWriter buf) p hp

/-- C8 witness: the one access of a single `write_byte` is in bounds. -/
theorem no_out_of_bounds_access_witness :
    ((0, 0) : Nat × Nat) ∈
      traceAccessList (initialWriter testWriter.buffer)
        [ConsoleOp.writeByte 88] ∧
    (0 : Nat) < BUFFER_HEIGHT ∧ (0 : Nat) < BUFFER_WIDTH := by
  have hmem : ((0, 0) : Nat × Nat) ∈
      traceAccessList (initialWriter testWriter.buffer)
        [ConsoleOp.writeByte 88] := by decide
  exact ⟨hmem, no_out_of_bounds_access testWriter.buffer
    [ConsoleOp.writeByte 88] (0, 0) hmem⟩

/-- C10: `write_byte` substitutes nothing: any non-newline byte,
printable or not, is stored verbatim with the active color — at the
cursor when the column is below the width, at the post-wrap cursor
otherwise. -/
theorem write_byte_no_substitution (w : Writer) (b : Nat) (hb : b ≠ 10) :
    (w.column_position < BUFFER_WIDTH →
      (w.write_byte b).buffer.chars w.row_position w.column_position =
        ⟨b, w.color_code⟩) ∧
    (BUFFER_WIDTH ≤ w.column_position →
      (w.write_byte b).buffer.chars w.new_line.row_position 0 =
        ⟨b, w.color_code⟩) := by
  constructor
  · intro h
    rw [write_byte_no_wrap w b hb h]
    exact Buffer.chars_write_self w.buffer w.row_position w.column_position
      ⟨b, w.color_code⟩
  · intro h
    rw [write_byte_wrap w b hb h]
    exact Buffer.chars_write_self w.new_line.buffer
      w.new_line.row_position 0 ⟨b, w.color_code⟩

/-- C10 witness: the control byte 0x01 is stored verbatim, not as
0xfe. -/
theorem write_byte_no_substitution_witness :
    (testWriter.write_byte 1).buffer.chars 0 0 =
      ⟨1, testWriter.color_code⟩ ∧ (1 : Nat) ≠ 0xfe := by
  have h := (write_byte_no_substitution testWriter 1 (by decide)).1
    (by decide)
  exact ⟨h, by decide⟩


set_option maxRecDepth 1000000 in
/-- C9 counterexample: from a fresh writer, after `"a\n"`, `"bc\n"` and
one more newline the cursor is only on row 3; no scroll has happened,
row 0 still reads `a` (not `b`) and row 1 still holds `b`, `c` (not
blank). -/
theorem fresh_writer_three_lines_do_not_scroll :
    ((((testWriter.write_string [97, 10]).write_string [98, 99, 10]
        ).write_string [10]).buffer.chars 0 0).ascii_character = 97 ∧
    (97 : Nat) ≠ 98 ∧
    ((((testWriter.write_string [97, 10]).write_string [98, 99, 10]
        ).write_string [10]).buffer.chars 1 0).ascii_character = 98 ∧
    (98 : Nat) ≠ 32 ∧
    (((testWriter.write_string [97, 10]).write_string [98, 99, 10]
        ).write_string [10]).row_position = 3 := by
  decide

set_option maxRecDepth 1000000 in
/-- C9 amended: the same two labeled lines scroll as the spec describes
once the cursor has first been brought to the last row; the final
newline then moves `b`, `c` up to row 0 columns 0, 1 and leaves row 1
blank. -/
theorem scroll_moves_labeled_rows_up :
    scrollScenario.buffer.chars 0 0 = ⟨98, testWriter.color_code⟩ ∧
    scrollScenario.buffer.chars 0 1 = ⟨99, testWriter.color_code⟩ ∧
    (∀ c, c < BUFFER_WIDTH →
      (scrollScenario.buffer.chars 1 c).ascii_character = 32) ∧
    scrollScenario.row_position = BUFFER_HEIGHT - 1 ∧
    scrollScenario.column_position = 0 := by
  decide


/-- C9 amended witness: column 0 of row 1 is blank after the scroll. -/
theorem scroll_moves_labeled_rows_up_witness :
    (scrollScenario.buffer.chars 1 0).ascii_character = 32 :=
  scroll_moves_labeled_rows_up.2.2.1 0 (by decide)

end Vga
